import Mathlib

/-!
# Exit-code table generator (`main.go`)

A shallow embedding of the generator's `main` and `execTmpl`.

* A Go `string` is modelled by the list of its characters.  The code only
  compares against the ASCII literals `"EX_"`, `"EXIT_"` and `""`, so the
  byte-wise library routines act on the characters exactly as they act on
  the UTF-8 bytes.
* `parser.Next()` of the TSV library is modelled by a script: the list of
  the results that successive calls return (the `eof` flag, the error, and
  the content of `ecRow` after the call).  A script that is used up answers
  `eof`, as a reader at the end of its text does.
* Template parsing, `os.OpenFile` and template execution are oracles of an
  environment; the file effects of a run are recorded as a list of events.
* `log.Fatalf`/`log.Fatalln` end the run: the run's outcome is either a
  normal return or the fatal message.
-/

namespace ExitCodes

/-- A Go `string`, as the sequence of its characters. -/
abbrev GoString := List Char

/-- A Go `error`, represented by its message. -/
abbrev GoError := GoString

/-- The record `ExitCode` of `main.go` (lines 16-22). -/
structure ExitCode where
  Code : Int
  GoStyleName : GoString
  PyStyleName : GoString
  Description : GoString
  Group : GoString
deriving DecidableEq

/-- The record `ExitCodeTSVRow` of `main.go` (lines 24-31). -/
structure ExitCodeTSVRow where
  Code : Int
  Name : GoString
  PSOverride : GoString
  GSOverride : GoString
  Description : GoString
  Group : GoString
deriving DecidableEq

/-- Go's `strings.HasPrefix`:
`len(s) >= len(prefix) && s[:len(prefix)] == prefix`. -/
def HasPrefix (s pfx : GoString) : Bool :=
  decide (s.length ≥ pfx.length) && (s.take pfx.length == pfx)

/-- Go's `strings.TrimPrefix`:
`if HasPrefix(s, prefix) { return s[len(prefix):] }; return s`. -/
def TrimPrefix (s pfx : GoString) : GoString :=
  if HasPrefix s pfx then s.drop pfx.length else s

/-- The value of the local variable `name` after lines 72-77 of `main`. -/
def strippedName (name : GoString) : GoString :=
  if HasPrefix name "EX_".toList then
    TrimPrefix name "EX_".toList
  else if HasPrefix name "EXIT_".toList then
    TrimPrefix name "EXIT_".toList
  else
    name

/-- The body of the row loop after a successful `Next` (lines 66-89): the
record `ec` built from the current `ecRow`.  `toCamel` stands for the
library function `strcase.ToCamel`. -/
def buildExitCode (toCamel : GoString → GoString) (ecRow : ExitCodeTSVRow) : ExitCode :=
  let name := strippedName ecRow.Name
  { Code := ecRow.Code
    Description := ecRow.Description
    Group := ecRow.Group
    PyStyleName := if ecRow.PSOverride ≠ [] then ecRow.PSOverride else name
    GoStyleName := if ecRow.GSOverride ≠ [] then ecRow.GSOverride else toCamel name }

/-- What one call of `parser.Next()` returns, together with the content of
`ecRow` after the call. -/
structure NextResult where
  eof : Bool
  err : Option GoError
  ecRow : ExitCodeTSVRow
deriving DecidableEq

/-- The observable effects of a run. -/
inductive Event where
  /-- A call of `parser.Next()`. -/
  | next
  /-- A call of `execTmpl(name, outfile, ...)`. -/
  | render (name outfile : GoString)
  /-- The `os.OpenFile(outfile, O_CREATE|O_TRUNC|O_WRONLY)` call succeeded:
  the file exists and is empty. -/
  | openFile (name outfile : GoString)
  /-- The call `t.Execute(f, ecs)`, writing to the opened file. -/
  | execute (name outfile : GoString) (ecs : List ExitCode)
  /-- The deferred `f.Close()`. -/
  | close (name outfile : GoString)
deriving DecidableEq

/-- The template name under which an event of a render happened. -/
def Event.target : Event → Option GoString
  | .next => none
  | .render name _ => some name
  | .openFile name _ => some name
  | .execute name _ _ => some name
  | .close name _ => some name

/-- The outside world of a run: the template engine and the file system.
An oracle returns `none` for a nil error.  The file-system oracles see the
events that happened before the call. -/
structure Env where
  templateParse : GoString → GoString → Option GoError
  osOpenFile : List Event → GoString → Option GoError
  templateExecute : List Event → GoString → GoString → GoString → List ExitCode → Option GoError

/-- The function `execTmpl` of `main.go` (lines 106-123): the returned error
and the events of the call, given the events `hist` that precede it. -/
def execTmpl (env : Env) (hist : List Event) (name outfile templ : GoString)
    (ecs : List ExitCode) : Option GoError × List Event :=
  let called := [Event.render name outfile]
  match env.templateParse name templ with
  | some err => (some ("failed to parse template: ".toList ++ err), called)
  | none =>
    match env.osOpenFile (hist ++ called) outfile with
    | some err => (some ("failed to open output file: ".toList ++ err), called)
    | none =>
      let opened := called ++ [Event.openFile name outfile]
      let done := opened ++ [Event.execute name outfile ecs, Event.close name outfile]
      match env.templateExecute (hist ++ opened) name templ outfile ecs with
      | some err => (some ("failed to execute template: ".toList ++ err), done)
      | none => (none, done)

/-- The messages of the `log.Fatal` calls of `main`. -/
inductive FatalMsg where
  /-- Line 48: `At least one of -go or -py must be given.` -/
  | usage
  /-- Line 63: `row %d: failed to parse: %s`. -/
  | rowParse (rowN : Nat) (err : GoError)
  /-- Line 96: `Failed to execute Go template: %v`. -/
  | goTemplate (err : GoError)
  /-- Line 101: `Failed to execute Python template: %v`. -/
  | pyTemplate (err : GoError)
deriving DecidableEq

/-- How a run ends. -/
inductive Outcome where
  /-- The function `main` returns: exit status 0. -/
  | exit0
  /-- A `log.Fatal` call: the message is printed and the process exits
  with status 1. -/
  | fatal (msg : FatalMsg)
deriving DecidableEq

/-- The row loop of `main` (lines 56-92), started with the counter `rowN`
and the records `ecs` built so far: the final record list or the fatal
message, and the events of the loop. -/
def rowLoop (toCamel : GoString → GoString) :
    List NextResult → Nat → List ExitCode → Except FatalMsg (List ExitCode) × List Event
  | [], _, ecs => (.ok ecs, [Event.next])
  | r :: parser, rowN, ecs =>
    let rowN := rowN + 1
    if r.eof then
      (.ok ecs, [Event.next])
    else
      match r.err with
      | some err => (.error (.rowParse rowN err), [Event.next])
      | none =>
        let rest := rowLoop toCamel parser rowN (ecs ++ [buildExitCode toCamel r.ecRow])
        (rest.1, Event.next :: rest.2)

/-- The function `main` of `main.go` (lines 42-104), for the flag values
`goOutfile` and `pyOutfile`, the embedded templates and the parser over the
embedded table. -/
def main (env : Env) (toCamel : GoString → GoString) (goTmpl pyTmpl : GoString)
    (parser : List NextResult) (goOutfile pyOutfile : GoString) : Outcome × List Event :=
  if goOutfile = [] ∧ pyOutfile = [] then
    (.fatal .usage, [])
  else
    match rowLoop toCamel parser 0 [] with
    | (.error msg, evs) => (.fatal msg, evs)
    | (.ok ecs, evs) =>
      let goRun := if goOutfile ≠ [] then execTmpl env evs "go".toList goOutfile goTmpl ecs
        else (none, [])
      match goRun.1 with
      | some err => (.fatal (.goTemplate err), evs ++ goRun.2)
      | none =>
        let hist := evs ++ goRun.2
        let pyRun := if pyOutfile ≠ [] then execTmpl env hist "py".toList pyOutfile pyTmpl ecs
          else (none, [])
        match pyRun.1 with
        | some err => (.fatal (.pyTemplate err), hist ++ pyRun.2)
        | none => (.exit0, hist ++ pyRun.2)

/-! ### The upper-camel-case conversion -/

/-- Go's `unicode.IsSpace`. -/
def isSpace (c : Char) : Bool :=
  let n := c.toNat
  (0x09 ≤ n && n ≤ 0x0D) || n == 0x20 || n == 0x85 || n == 0xA0 || n == 0x1680 ||
    (0x2000 ≤ n && n ≤ 0x200A) || n == 0x2028 || n == 0x2029 || n == 0x202F ||
    n == 0x205F || n == 0x3000

/-- Go's `strings.TrimSpace`: leading and trailing white space removed. -/
def TrimSpace (s : GoString) : GoString :=
  ((s.dropWhile isSpace).reverse.dropWhile isSpace).reverse

/-- The test `v >= 'A' && v <= 'Z'`. -/
def isCap (v : Char) : Bool := 65 ≤ v.toNat && v.toNat ≤ 90

/-- The test `v >= 'a' && v <= 'z'`. -/
def isLow (v : Char) : Bool := 97 ≤ v.toNat && v.toNat ≤ 122

/-- The test `v >= '0' && v <= '9'`. -/
def isNum (v : Char) : Bool := 48 ≤ v.toNat && v.toNat ≤ 57

/-- The test `v == '_' || v == ' ' || v == '-' || v == '.'`. -/
def isDelim (v : Char) : Bool := v == '_' || v == ' ' || v == '-' || v == '.'

/-- The update `v += 'A'; v -= 'a'`. -/
def toUpperByte (v : Char) : Char := Char.ofNat (v.toNat + 65 - 97)

/-- The update `v += 'a'; v -= 'A'`. -/
def toLowerByte (v : Char) : Char := Char.ofNat (v.toNat + 97 - 65)

/-- Modelled from the spec: the conversion loop of the library function
`strcase.ToCamel` (package `github.com/iancoleman/strcase`, function
`toCamelInitCase`), which `main.go` imports and whose text is not part of
the repository.  The spec describes it as turning an underscore-separated
token sequence into one identifier in which each token's first letter is
capitalised and the delimiters are removed, with `USAGE` giving `Usage` and
`DATA_ERR` giving `DataErr`.  The loop reads the characters `v` at index
`i` with the flags `capNext` and `prevIsCap` and appends to `n`: a letter
is upper-cased when `capNext` is set and lower-cased when it is a capital
that follows a capital; letters and digits are written, everything else is
dropped; `capNext` is set after a digit and after one of the delimiters
`_`, space, `-`, `.`. -/
def toCamelLoop : GoString → Nat → Bool → Bool → GoString → GoString
  | [], _, _, _, n => n
  | v :: rest, i, capNext, prevIsCap, n =>
    let vIsCap := isCap v
    let vIsLow := isLow v
    let w :=
      if capNext then
        if vIsLow then toUpperByte v else v
      else if i == 0 then
        if vIsCap then toLowerByte v else v
      else if prevIsCap && vIsCap then toLowerByte v
      else v
    if vIsCap || vIsLow then
      toCamelLoop rest (i + 1) false vIsCap (n ++ [w])
    else if isNum v then
      toCamelLoop rest (i + 1) true vIsCap (n ++ [w])
    else
      toCamelLoop rest (i + 1) (isDelim v) vIsCap n

/-- Modelled from the spec: the library function `strcase.ToCamel`, that is
`toCamelInitCase(s, true)`: the text is trimmed of surrounding white space,
an empty text is returned as it is, and otherwise the conversion loop runs
with `capNext` set.  No acronym is configured by `main.go`.  The library
loop runs over the bytes of the text; each byte of a character outside
ASCII is neither a letter, a digit nor a delimiter, so the character acts
in the loop as one such byte does. -/
def ToCamel (s : GoString) : GoString :=
  let s := TrimSpace s
  if s = [] then s else toCamelLoop s 0 true false []

/-! ### Definitions used to state the properties -/

/-- The parser script of rows that decode without error: for each row a
call of `Next` that returns `eof = false` and a nil error and leaves the
row in `ecRow`. -/
def okScript (rows : List ExitCodeTSVRow) : List NextResult :=
  rows.map fun row => ⟨false, none, row⟩

/-- The prefix stripping in the words of the specification: the longer
prefix `EXIT_` is tested before `EX_`, and the first one that matches is
removed. -/
def strippedNameSpec (name : GoString) : GoString :=
  if "EXIT_".toList <+: name then name.drop 5
  else if "EX_".toList <+: name then name.drop 3
  else name

/-- The capital form of a letter: a lower-case ASCII letter is replaced by
its capital, every other character is kept. -/
def capital (v : Char) : Char := if isLow v then toUpperByte v else v

/-- The character that the camel-case loop writes for `v` at index `i`
under the flags `capNext` and `prevIsCap`. -/
def writtenByte (v : Char) (i : Nat) (capNext prevIsCap : Bool) : Char :=
  if capNext then
    if isLow v then toUpperByte v else v
  else if i == 0 then
    if isCap v then toLowerByte v else v
  else if prevIsCap && isCap v then toLowerByte v
  else v

/-- The tokens written one after the other with an underscore between
neighbours. -/
def underscored : List GoString → GoString
  | [] => []
  | [t] => t
  | t :: ts => t ++ '_' :: underscored ts

/-- The output path that an event of a render concerns. -/
def Event.outfile : Event → Option GoString
  | .next => none
  | .render _ outfile => some outfile
  | .openFile _ outfile => some outfile
  | .execute _ outfile _ => some outfile
  | .close _ outfile => some outfile

/-- Two rows of the kind the table holds: `0 EXIT_OK` and `64 EX_USAGE`,
without overrides. -/
def sampleRows : List ExitCodeTSVRow :=
  [⟨0, "EXIT_OK".toList, [], [], "success".toList, "general".toList⟩,
   ⟨64, "EX_USAGE".toList, [], [], "command line usage error".toList, "sysexits".toList⟩]

/-- A row that sets both overrides. -/
def overrideRow : ExitCodeTSVRow :=
  ⟨70, "EX_SOFTWARE".toList, "SOFTWARE_ERROR".toList, "Custom".toList,
    "internal software error".toList, "sysexits".toList⟩

/-- A row whose canonical name is just the prefix `EX_`. -/
def bareRow : ExitCodeTSVRow :=
  ⟨64, "EX_".toList, [], [], "command line usage error".toList, "sysexits".toList⟩

/-- A result of `Next` that reports a decoding error for the current line. -/
def badResult : NextResult :=
  ⟨false, some "wrong number of fields".toList, overrideRow⟩

/-- A result of `Next` at the end of the input. -/
def eofResult : NextResult := ⟨true, none, overrideRow⟩

/-- An environment in which every template parses and executes and every
file can be opened. -/
def okEnv : Env :=
  ⟨fun _ _ => none, fun _ _ => none, fun _ _ _ _ _ => none⟩

/-- An environment in which every template parses and executes and no file
can be opened. -/
def readOnlyEnv : Env :=
  ⟨fun _ _ => none, fun _ _ => some "permission denied".toList, fun _ _ _ _ _ => none⟩

/-- An environment in which every template parses and every file can be
opened, and the execution of a template fails. -/
def execFailEnv : Env :=
  ⟨fun _ _ => none, fun _ _ => none, fun _ _ _ _ _ => some "write failed".toList⟩

/-- A row whose last token starts with a character that is not a letter. -/
def plusRow : ExitCodeTSVRow :=
  ⟨65, "EX_DATA_+err".toList, [], [], "data format error".toList, "sysexits".toList⟩

/-! ### Prefix stripping -/

theorem hasPrefix_append (p s : GoString) : HasPrefix (p ++ s) p = true := by
  simp [HasPrefix]

theorem trimPrefix_append (p s : GoString) : TrimPrefix (p ++ s) p = s := by
  simp [TrimPrefix, hasPrefix_append]

theorem hasPrefix_iff (s p : GoString) : HasPrefix s p = true ↔ p <+: s := by
  constructor
  · intro h
    simp only [HasPrefix, Bool.and_eq_true, decide_eq_true_eq, beq_iff_eq] at h
    have h3 := List.take_append_drop p.length s
    rw [h.2] at h3
    exact ⟨s.drop p.length, h3⟩
  · rintro ⟨t, rfl⟩
    exact hasPrefix_append p t

theorem hasPrefix_eq_false (s p : GoString) (h : ¬ p <+: s) : HasPrefix s p = false := by
  cases hp : HasPrefix s p
  · rfl
  · exact absurd ((hasPrefix_iff s p).1 hp) h

theorem ex_not_hasPrefix_exit (s : GoString) :
    HasPrefix ("EXIT_".toList ++ s) "EX_".toList = false := by
  simp [HasPrefix]

theorem strippedName_ex (s : GoString) : strippedName ("EX_".toList ++ s) = s := by
  unfold strippedName
  rw [if_pos (hasPrefix_append _ _), trimPrefix_append]

theorem strippedName_exit (s : GoString) : strippedName ("EXIT_".toList ++ s) = s := by
  unfold strippedName
  rw [if_neg (by rw [ex_not_hasPrefix_exit]; simp), if_pos (hasPrefix_append _ _),
    trimPrefix_append]

theorem strippedName_other (name : GoString) (h1 : HasPrefix name "EX_".toList = false)
    (h2 : HasPrefix name "EXIT_".toList = false) : strippedName name = name := by
  unfold strippedName
  rw [if_neg (by rw [h1]; simp), if_neg (by rw [h2]; simp)]

/-- Claim C2: prefix stripping removes at most one known prefix.  The
stripped form of `"EX_" ++ s` is `s`, the stripped form of `"EXIT_" ++ s` is
`s`, a name that starts with neither prefix is left as it is, and the
stripping is done once: `EX_EXIT_OK` gives `EXIT_OK`, `EX_USAGE` gives
`USAGE`, `EXIT_OK` gives `OK`, `FOO` gives `FOO`. -/
theorem strippedName_one_known_prefix (s name : GoString)
    (hex : ¬ "EX_".toList <+: name) (hexit : ¬ "EXIT_".toList <+: name) :
    strippedName ("EX_".toList ++ s) = s ∧
    strippedName ("EXIT_".toList ++ s) = s ∧
    strippedName name = name ∧
    strippedName "EX_EXIT_OK".toList = "EXIT_OK".toList ∧
    strippedName "EX_USAGE".toList = "USAGE".toList ∧
    strippedName "EXIT_OK".toList = "OK".toList ∧
    strippedName "FOO".toList = "FOO".toList :=
  ⟨strippedName_ex s, strippedName_exit s,
    strippedName_other name (hasPrefix_eq_false _ _ hex) (hasPrefix_eq_false _ _ hexit),
    by decide, by decide, by decide, by decide⟩

/-- Claim C2 at `s = "EXIT_OK"` and `name = "EXTRA"`. -/
theorem strippedName_one_known_prefix_witness :
    (¬ "EX_".toList <+: "EXTRA".toList) ∧ (¬ "EXIT_".toList <+: "EXTRA".toList) ∧
    strippedName ("EX_".toList ++ "EXIT_OK".toList) = "EXIT_OK".toList ∧
    strippedName ("EXIT_".toList ++ "EXIT_OK".toList) = "EXIT_OK".toList ∧
    strippedName "EXTRA".toList = "EXTRA".toList :=
  have h := strippedName_one_known_prefix "EXIT_OK".toList "EXTRA".toList
    (by decide) (by decide)
  ⟨by decide, by decide, h.1, h.2.1, h.2.2.1⟩

/-- Claim C10: for every canonical name the prefix stripping of the code
gives the same result as a stripping that tests `EXIT_` before `EX_` and
removes the first prefix that matches. -/
theorem strippedName_eq_strippedNameSpec (name : GoString) :
    strippedName name = strippedNameSpec name := by
  unfold strippedNameSpec
  by_cases hexit : "EXIT_".toList <+: name
  · obtain ⟨t, rfl⟩ := hexit
    rw [if_pos ⟨t, rfl⟩, strippedName_exit]
    rfl
  · rw [if_neg hexit]
    by_cases hex : "EX_".toList <+: name
    · obtain ⟨t, rfl⟩ := hex
      rw [if_pos ⟨t, rfl⟩, strippedName_ex]
      rfl
    · rw [if_neg hex]
      exact strippedName_other name (hasPrefix_eq_false _ _ hex) (hasPrefix_eq_false _ _ hexit)

/-! ### One record per row -/

theorem rowLoop_okScript (toCamel : GoString → GoString) (rows : List ExitCodeTSVRow)
    (tail : List NextResult) (htail : ∀ r ∈ tail.head?, r.eof = true) (rowN : Nat)
    (ecs : List ExitCode) :
    rowLoop toCamel (okScript rows ++ tail) rowN ecs =
      (.ok (ecs ++ rows.map (buildExitCode toCamel)),
        List.replicate (rows.length + 1) Event.next) := by
  induction rows generalizing rowN ecs with
  | nil =>
    cases tail with
    | nil => simp [okScript, rowLoop]
    | cons r rest =>
      have hr : r.eof = true := htail r (by simp)
      simp [okScript, rowLoop, hr]
  | cons row rows ih =>
    have hstep : rowLoop toCamel (okScript (row :: rows) ++ tail) rowN ecs =
        ((rowLoop toCamel (okScript rows ++ tail) (rowN + 1)
            (ecs ++ [buildExitCode toCamel row])).1,
          Event.next :: (rowLoop toCamel (okScript rows ++ tail) (rowN + 1)
            (ecs ++ [buildExitCode toCamel row])).2) := by
      simp [okScript, rowLoop]
    rw [hstep, ih]
    simp [List.replicate_succ]

theorem rowLoop_failure (toCamel : GoString → GoString) (rows : List ExitCodeTSVRow)
    (r : NextResult) (tail : List NextResult) (e : GoError) (heof : r.eof = false)
    (herr : r.err = some e) (rowN : Nat) (ecs : List ExitCode) :
    rowLoop toCamel (okScript rows ++ r :: tail) rowN ecs =
      (.error (.rowParse (rowN + rows.length + 1) e),
        List.replicate (rows.length + 1) Event.next) := by
  induction rows generalizing rowN ecs with
  | nil => simp [okScript, rowLoop, heof, herr]
  | cons row rows ih =>
    have hstep : rowLoop toCamel (okScript (row :: rows) ++ r :: tail) rowN ecs =
        ((rowLoop toCamel (okScript rows ++ r :: tail) (rowN + 1)
            (ecs ++ [buildExitCode toCamel row])).1,
          Event.next :: (rowLoop toCamel (okScript rows ++ r :: tail) (rowN + 1)
            (ecs ++ [buildExitCode toCamel row])).2) := by
      simp [okScript, rowLoop]
    rw [hstep, ih]
    have harith : rowN + 1 + rows.length + 1 = rowN + (row :: rows).length + 1 := by
      simp only [List.length_cons]; omega
    simp [List.replicate_succ, harith]

/-- Claim C1: for every sequence of rows that the parser yields without
error (followed by the end of the input), the row loop of `main` returns a
record list of the same length whose i-th record is built from the i-th row
and carries that row's code, description and group. -/
theorem rowLoop_one_record_per_row (toCamel : GoString → GoString)
    (rows : List ExitCodeTSVRow) (tail : List NextResult)
    (htail : ∀ r ∈ tail.head?, r.eof = true) :
    ∃ ecs : List ExitCode,
      (rowLoop toCamel (okScript rows ++ tail) 0 []).1 = .ok ecs ∧
      ecs.length = rows.length ∧
      ∀ (i : Nat) (hi : i < rows.length), ∃ ec : ExitCode,
        ecs[i]? = some ec ∧
        ec = buildExitCode toCamel (rows.get ⟨i, hi⟩) ∧
        ec.Code = (rows.get ⟨i, hi⟩).Code ∧
        ec.Description = (rows.get ⟨i, hi⟩).Description ∧
        ec.Group = (rows.get ⟨i, hi⟩).Group := by
  refine ⟨rows.map (buildExitCode toCamel), ?_, by simp, ?_⟩
  · rw [rowLoop_okScript toCamel rows tail htail]
    simp
  · intro i hi
    refine ⟨buildExitCode toCamel (rows.get ⟨i, hi⟩), ?_, rfl, rfl, rfl, rfl⟩
    simp [List.getElem?_map, List.getElem?_eq_getElem hi]

/-! ### The run: events and fatal errors -/

theorem rowLoop_events (toCamel : GoString → GoString) (parser : List NextResult)
    (rowN : Nat) (ecs : List ExitCode) :
    ∀ ev ∈ (rowLoop toCamel parser rowN ecs).2, ev = Event.next := by
  induction parser generalizing rowN ecs with
  | nil => simp [rowLoop]
  | cons r parser ih =>
    unfold rowLoop
    by_cases heof : r.eof = true
    · simp [heof]
    · cases herr : r.err with
      | some e => simp [heof]
      | none =>
        simp only [heof, Bool.false_eq_true, if_false, List.mem_cons]
        rintro ev (h | h)
        · exact h
        · exact ih _ _ ev h

theorem rowLoop_error (toCamel : GoString → GoString) (parser : List NextResult)
    (rowN : Nat) (ecs : List ExitCode) (msg : FatalMsg)
    (h : (rowLoop toCamel parser rowN ecs).1 = .error msg) :
    ∃ k e, msg = .rowParse k e := by
  induction parser generalizing rowN ecs with
  | nil => simp [rowLoop] at h
  | cons r parser ih =>
    unfold rowLoop at h
    by_cases heof : r.eof = true
    · simp [heof] at h
    · cases herr : r.err with
      | some e =>
        simp [heof, herr] at h
        exact ⟨_, _, h.symm⟩
      | none =>
        simp only [heof, herr, Bool.false_eq_true, if_false] at h
        exact ih _ _ h

theorem execTmpl_events (env : Env) (hist : List Event) (name outfile templ : GoString)
    (ecs : List ExitCode) :
    ∀ ev ∈ (execTmpl env hist name outfile templ ecs).2, ev.target = some name := by
  cases h1 : env.templateParse name templ with
  | some e => simp [execTmpl, h1, Event.target]
  | none =>
    cases h2 : env.osOpenFile (hist ++ [Event.render name outfile]) outfile with
    | some e => simp [execTmpl, h1, h2, Event.target]
    | none =>
      cases h3 : env.templateExecute
          (hist ++ [Event.render name outfile, Event.openFile name outfile])
          name templ outfile ecs with
      | some e => simp [execTmpl, h1, h2, h3, Event.target]
      | none => simp [execTmpl, h1, h2, h3, Event.target]

theorem main_usage (env : Env) (toCamel : GoString → GoString) (goTmpl pyTmpl : GoString)
    (parser : List NextResult) :
    main env toCamel goTmpl pyTmpl parser [] [] = (.fatal .usage, []) := by
  simp [main]

theorem main_of_error (env : Env) (toCamel : GoString → GoString) (goTmpl pyTmpl : GoString)
    (parser : List NextResult) (goOutfile pyOutfile : GoString)
    (hreq : ¬ (goOutfile = [] ∧ pyOutfile = [])) (msg : FatalMsg) (evs : List Event)
    (hloop : rowLoop toCamel parser 0 [] = (.error msg, evs)) :
    main env toCamel goTmpl pyTmpl parser goOutfile pyOutfile = (.fatal msg, evs) := by
  unfold main
  rw [if_neg hreq, hloop]

theorem main_of_go_error (env : Env) (toCamel : GoString → GoString)
    (goTmpl pyTmpl : GoString) (parser : List NextResult) (goOutfile pyOutfile : GoString)
    (hgo : goOutfile ≠ []) (ecs : List ExitCode) (evs : List Event)
    (hloop : rowLoop toCamel parser 0 [] = (.ok ecs, evs)) (e : GoError)
    (herr : (execTmpl env evs "go".toList goOutfile goTmpl ecs).1 = some e) :
    main env toCamel goTmpl pyTmpl parser goOutfile pyOutfile =
      (.fatal (.goTemplate e),
        evs ++ (execTmpl env evs "go".toList goOutfile goTmpl ecs).2) := by
  unfold main
  rw [if_neg (fun h => hgo h.1), hloop]
  simp only [if_pos hgo]
  rw [herr]

theorem main_of_go_ok (env : Env) (toCamel : GoString → GoString)
    (goTmpl pyTmpl : GoString) (parser : List NextResult) (goOutfile pyOutfile : GoString)
    (hgo : goOutfile ≠ []) (ecs : List ExitCode) (evs : List Event)
    (hloop : rowLoop toCamel parser 0 [] = (.ok ecs, evs))
    (hok : (execTmpl env evs "go".toList goOutfile goTmpl ecs).1 = none) :
    (main env toCamel goTmpl pyTmpl parser goOutfile pyOutfile).2 =
      evs ++ (execTmpl env evs "go".toList goOutfile goTmpl ecs).2 ++
        (if pyOutfile ≠ [] then
          (execTmpl env (evs ++ (execTmpl env evs "go".toList goOutfile goTmpl ecs).2)
            "py".toList pyOutfile pyTmpl ecs).2
         else []) := by
  unfold main
  rw [if_neg (fun h => hgo h.1), hloop]
  simp only [if_pos hgo]
  rw [hok]
  by_cases hpy : pyOutfile = []
  · simp [hpy]
  · simp only [ne_eq, hpy, not_false_eq_true, if_true]
    cases (execTmpl env (evs ++ (execTmpl env evs "go".toList goOutfile goTmpl ecs).2)
            "py".toList pyOutfile pyTmpl ecs).1 <;> rfl

theorem execTmpl_outfile (env : Env) (hist : List Event) (name outfile templ : GoString)
    (ecs : List ExitCode) :
    ∀ ev ∈ (execTmpl env hist name outfile templ ecs).2, ev.outfile = some outfile := by
  cases h1 : env.templateParse name templ with
  | some e => simp [execTmpl, h1, Event.outfile]
  | none =>
    cases h2 : env.osOpenFile (hist ++ [Event.render name outfile]) outfile with
    | some e => simp [execTmpl, h1, h2, Event.outfile]
    | none =>
      cases h3 : env.templateExecute
          (hist ++ [Event.render name outfile, Event.openFile name outfile])
          name templ outfile ecs with
      | some e => simp [execTmpl, h1, h2, h3, Event.outfile]
      | none => simp [execTmpl, h1, h2, h3, Event.outfile]

theorem go_ne_py : ("go".toList : GoString) ≠ "py".toList := by decide

/-- Claim C1 at the two sample rows followed by the end of the input. -/
theorem rowLoop_one_record_per_row_witness :
    (∀ r ∈ [eofResult].head?, r.eof = true) ∧
    ∃ ecs : List ExitCode,
      (rowLoop ToCamel (okScript sampleRows ++ [eofResult]) 0 []).1 = .ok ecs ∧
      ecs.length = 2 :=
  have htail : ∀ r ∈ [eofResult].head?, r.eof = true := by
    intro r hr
    simp only [List.head?_cons, Option.mem_def, Option.some.injEq] at hr
    rw [← hr]
    rfl
  have h := rowLoop_one_record_per_row ToCamel sampleRows [eofResult] htail
  ⟨htail, h.elim fun ecs hecs => ⟨ecs, hecs.1, hecs.2.1⟩⟩

/-- Claim C3: for every row whose Go-name override `GSOverride` is not
empty, the record's `GoStyleName` is that override, whatever the canonical
name, the Python override, the other fields and the camel-case conversion
are. -/
theorem goStyleName_of_override (toCamel : GoString → GoString) (ecRow : ExitCodeTSVRow)
    (h : ecRow.GSOverride ≠ []) :
    (buildExitCode toCamel ecRow).GoStyleName = ecRow.GSOverride := by
  simp [buildExitCode, h]

/-- Claim C3 at the row `EX_SOFTWARE` with the Go override `Custom`. -/
theorem goStyleName_of_override_witness :
    overrideRow.GSOverride ≠ [] ∧
    (buildExitCode ToCamel overrideRow).GoStyleName = "Custom".toList :=
  ⟨by decide, goStyleName_of_override ToCamel overrideRow (by decide)⟩

/-- Claim C4: the record's `PyStyleName` is the Python override `PSOverride`
when that override is not empty, and otherwise the prefix-stripped canonical
name as it is, with no case conversion and no removal of underscores: a
row named `EX_DATA_ERR` without override gets `DATA_ERR`. -/
theorem pyStyleName_eq (toCamel : GoString → GoString) (ecRow : ExitCodeTSVRow) :
    (ecRow.PSOverride ≠ [] → (buildExitCode toCamel ecRow).PyStyleName = ecRow.PSOverride) ∧
    (ecRow.PSOverride = [] →
      (buildExitCode toCamel ecRow).PyStyleName = strippedName ecRow.Name) ∧
    (buildExitCode toCamel
      ⟨65, "EX_DATA_ERR".toList, [], [], ecRow.Description, ecRow.Group⟩).PyStyleName =
        "DATA_ERR".toList := by
  refine ⟨?_, ?_, ?_⟩
  · intro h
    simp [buildExitCode, h]
  · intro h
    simp [buildExitCode, h]
  · have hs : strippedName "EX_DATA_ERR".toList = "DATA_ERR".toList := by decide
    simp only [buildExitCode, ne_eq, not_true_eq_false, if_false]
    exact hs

/-- Claim C4 at a row with a Python override and at a row without one. -/
theorem pyStyleName_eq_witness :
    overrideRow.PSOverride ≠ [] ∧
    (buildExitCode ToCamel overrideRow).PyStyleName = "SOFTWARE_ERROR".toList ∧
    (⟨64, "EX_USAGE".toList, [], [], [], []⟩ : ExitCodeTSVRow).PSOverride = [] ∧
    (buildExitCode ToCamel ⟨64, "EX_USAGE".toList, [], [], [], []⟩).PyStyleName =
      strippedName "EX_USAGE".toList :=
  ⟨by decide, (pyStyleName_eq ToCamel overrideRow).1 (by decide), rfl,
    (pyStyleName_eq ToCamel ⟨64, "EX_USAGE".toList, [], [], [], []⟩).2.1 rfl⟩

/-- Claim C7: when the k-th call of the parser's `Next` is the first that
returns an error (the calls before it delivered rows), the run ends with the
fatal message that names row k, and the only events of the run are the k
calls of `Next`: no render is started and no output file is opened, created
or written, however many rows were parsed before. -/
theorem main_parse_failure (env : Env) (toCamel : GoString → GoString)
    (goTmpl pyTmpl : GoString) (rows : List ExitCodeTSVRow) (r : NextResult)
    (tail : List NextResult) (e : GoError) (goOutfile pyOutfile : GoString)
    (hreq : goOutfile ≠ [] ∨ pyOutfile ≠ []) (heof : r.eof = false)
    (herr : r.err = some e) :
    main env toCamel goTmpl pyTmpl (okScript rows ++ r :: tail) goOutfile pyOutfile =
        (.fatal (.rowParse (rows.length + 1) e),
          List.replicate (rows.length + 1) Event.next) ∧
    ∀ ev ∈ (main env toCamel goTmpl pyTmpl (okScript rows ++ r :: tail)
        goOutfile pyOutfile).2, ev.target = none ∧ ev.outfile = none := by
  have hmain : main env toCamel goTmpl pyTmpl (okScript rows ++ r :: tail)
      goOutfile pyOutfile = (.fatal (.rowParse (rows.length + 1) e),
        List.replicate (rows.length + 1) Event.next) := by
    apply main_of_error
    · rintro ⟨h1, h2⟩
      rcases hreq with h | h
      · exact h h1
      · exact h h2
    · rw [rowLoop_failure toCamel rows r tail e heof herr 0 []]
      simp
  refine ⟨hmain, ?_⟩
  rw [hmain]
  intro ev hev
  rw [List.eq_of_mem_replicate hev]
  exact ⟨rfl, rfl⟩

/-- Claim C7 at a table whose third line does not decode, with both targets
requested. -/
theorem main_parse_failure_witness :
    ("out.go".toList ≠ [] ∨ "out.py".toList ≠ []) ∧ badResult.eof = false ∧
    badResult.err = some "wrong number of fields".toList ∧
    main okEnv ToCamel "go template".toList "py template".toList
        (okScript sampleRows ++ badResult :: [eofResult]) "out.go".toList "out.py".toList =
      (.fatal (.rowParse 3 "wrong number of fields".toList),
        [Event.next, Event.next, Event.next]) :=
  ⟨Or.inl (by decide), rfl, rfl,
    (main_parse_failure okEnv ToCamel "go template".toList "py template".toList sampleRows
      badResult [eofResult] "wrong number of fields".toList "out.go".toList "out.py".toList
      (Or.inl (by decide)) rfl rfl).1⟩

/-- Claim C8: when both output paths are empty the run ends with the fatal
usage message and without any event: `Next` is not called and no file is
opened or written.  When at least one of the two paths is not empty, the
run does not end with the usage message. -/
theorem main_usage_error (env : Env) (toCamel : GoString → GoString)
    (goTmpl pyTmpl : GoString) (parser : List NextResult) (goOutfile pyOutfile : GoString) :
    (goOutfile = [] ∧ pyOutfile = [] →
      main env toCamel goTmpl pyTmpl parser goOutfile pyOutfile = (.fatal .usage, [])) ∧
    (goOutfile ≠ [] ∨ pyOutfile ≠ [] →
      (main env toCamel goTmpl pyTmpl parser goOutfile pyOutfile).1 ≠ .fatal .usage) := by
  constructor
  · rintro ⟨h1, h2⟩
    rw [h1, h2, main_usage]
  · intro hreq
    have hreq2 : ¬ (goOutfile = [] ∧ pyOutfile = []) := by
      rintro ⟨h1, h2⟩
      rcases hreq with h | h
      · exact h h1
      · exact h h2
    unfold main
    rw [if_neg hreq2]
    cases hloop : rowLoop toCamel parser 0 [] with
    | mk res evs =>
      cases res with
      | error msg =>
        obtain ⟨k, e, hk⟩ := rowLoop_error toCamel parser 0 [] msg (by rw [hloop])
        simp [hk]
      | ok ecs =>
        dsimp only
        split
        · simp
        · split <;> simp

/-- Claim C8 with no target requested, and with the Go target alone. -/
theorem main_usage_error_witness :
    main okEnv ToCamel "go template".toList "py template".toList
        (okScript sampleRows) [] [] = (.fatal .usage, []) ∧
    (main okEnv ToCamel "go template".toList "py template".toList
        (okScript sampleRows) "out.go".toList []).1 ≠ .fatal .usage :=
  ⟨(main_usage_error okEnv ToCamel "go template".toList "py template".toList
      (okScript sampleRows) [] []).1 ⟨rfl, rfl⟩,
    (main_usage_error okEnv ToCamel "go template".toList "py template".toList
      (okScript sampleRows) "out.go".toList []).2 (Or.inl (by decide))⟩

/-- Claim C9 fails when both flags name the same path and the Go template
fails in its execution: the run ends with the fatal message of the Go
render, and the file that is also the Python output file was opened and
truncated by the Go render. -/
theorem main_go_failure_truncates_shared_path :
    (main execFailEnv ToCamel "go template".toList "py template".toList
        (okScript sampleRows) "out".toList "out".toList).1 =
      .fatal (.goTemplate "failed to execute template: write failed".toList) ∧
    Event.openFile "go".toList "out".toList ∈
      (main execFailEnv ToCamel "go template".toList "py template".toList
        (okScript sampleRows) "out".toList "out".toList).2 ∧
    ¬ (∀ (env : Env) (toCamel : GoString → GoString) (goTmpl pyTmpl : GoString)
        (parser : List NextResult) (goOutfile pyOutfile : GoString)
        (ecs : List ExitCode) (evs : List Event) (e : GoError),
        goOutfile ≠ [] → pyOutfile ≠ [] →
        rowLoop toCamel parser 0 [] = (.ok ecs, evs) →
        (execTmpl env evs "go".toList goOutfile goTmpl ecs).1 = some e →
        ∀ ev ∈ (main env toCamel goTmpl pyTmpl parser goOutfile pyOutfile).2,
          ∀ name : GoString, ev ≠ Event.openFile name pyOutfile) :=
  ⟨by decide, by decide, fun h =>
    h execFailEnv ToCamel "go template".toList "py template".toList (okScript sampleRows)
      "out".toList "out".toList (sampleRows.map (buildExitCode ToCamel))
      (List.replicate 3 Event.next) "failed to execute template: write failed".toList
      (by decide) (by decide) rfl rfl
      (Event.openFile "go".toList "out".toList) (by decide) "go".toList rfl⟩

/-- Claim C9, amended: rendering is fail-fast.  When both targets are
requested and the render of the Go target returns an error, the run ends
with the fatal message of the Go render, its events are those of the row
loop and of the Go render, and none of them belongs to the Python render,
which is never started.  Whenever the two paths denote different files,
under any resolution `fileOf` of paths to files, no event of the run
concerns the Python output file: it is neither opened nor truncated.  In
every run in which an event of the Python render occurs, the Python target
was requested, the rows were parsed, and the Go render was either not
requested or returned no error. -/
theorem main_render_fail_fast {File : Type} (fileOf : GoString → File) (env : Env)
    (toCamel : GoString → GoString)
    (goTmpl pyTmpl : GoString) (parser : List NextResult) (goOutfile pyOutfile : GoString) :
    (∀ (ecs : List ExitCode) (evs : List Event) (e : GoError),
        goOutfile ≠ [] → pyOutfile ≠ [] →
        rowLoop toCamel parser 0 [] = (.ok ecs, evs) →
        (execTmpl env evs "go".toList goOutfile goTmpl ecs).1 = some e →
        (main env toCamel goTmpl pyTmpl parser goOutfile pyOutfile).1 =
            .fatal (.goTemplate e) ∧
          (main env toCamel goTmpl pyTmpl parser goOutfile pyOutfile).2 =
            evs ++ (execTmpl env evs "go".toList goOutfile goTmpl ecs).2 ∧
          (∀ ev ∈ (main env toCamel goTmpl pyTmpl parser goOutfile pyOutfile).2,
            ev.target ≠ some "py".toList) ∧
          (fileOf pyOutfile ≠ fileOf goOutfile →
            ∀ ev ∈ (main env toCamel goTmpl pyTmpl parser goOutfile pyOutfile).2,
              ev.outfile.map fileOf ≠ some (fileOf pyOutfile))) ∧
    ((∃ ev ∈ (main env toCamel goTmpl pyTmpl parser goOutfile pyOutfile).2,
        ev.target = some "py".toList) →
      pyOutfile ≠ [] ∧
      ∃ (ecs : List ExitCode) (evs : List Event),
        rowLoop toCamel parser 0 [] = (.ok ecs, evs) ∧
        (goOutfile = [] ∨
          (execTmpl env evs "go".toList goOutfile goTmpl ecs).1 = none)) := by
  have hnext : ∀ res evs, rowLoop toCamel parser 0 [] = (res, evs) →
      ∀ ev ∈ evs, ev.target ≠ some "py".toList := by
    intro res evs hloop ev hev
    have h := rowLoop_events toCamel parser 0 [] ev (by rw [hloop]; exact hev)
    rw [h]
    simp [Event.target]
  have hgoev : ∀ evs ecs, ∀ ev ∈ (execTmpl env evs "go".toList goOutfile goTmpl ecs).2,
      ev.target ≠ some "py".toList := by
    intro evs ecs ev hev
    rw [execTmpl_events env evs _ _ _ ecs ev hev]
    intro h
    exact go_ne_py (Option.some.inj h)
  constructor
  · intro ecs evs e hgo _ hloop herr
    have hmain := main_of_go_error env toCamel goTmpl pyTmpl parser goOutfile pyOutfile
      hgo ecs evs hloop e herr
    rw [hmain]
    refine ⟨rfl, rfl, ?_, ?_⟩
    · intro ev hev
      rcases List.mem_append.1 hev with h | h
      · exact hnext _ _ hloop ev h
      · exact hgoev _ _ ev h
    · intro hne ev hev
      rcases List.mem_append.1 hev with h | h
      · have hn := rowLoop_events toCamel parser 0 [] ev (by rw [hloop]; exact h)
        rw [hn]
        simp [Event.outfile]
      · rw [execTmpl_outfile env evs _ _ _ ecs ev h]
        intro hp
        exact hne (Option.some.inj hp).symm
  · rintro ⟨ev, hev, htarget⟩
    by_cases hreq : goOutfile = [] ∧ pyOutfile = []
    · rw [hreq.1, hreq.2, main_usage] at hev
      simp at hev
    · cases hloop : rowLoop toCamel parser 0 [] with
      | mk res evs =>
        cases res with
        | error msg =>
          rw [main_of_error env toCamel goTmpl pyTmpl parser goOutfile pyOutfile hreq
            msg evs hloop] at hev
          exact absurd htarget (hnext _ _ hloop ev hev)
        | ok ecs =>
          by_cases hgo : goOutfile = []
          · exact ⟨fun hpy => hreq ⟨hgo, hpy⟩, ecs, evs, rfl, Or.inl hgo⟩
          · cases hrun : (execTmpl env evs "go".toList goOutfile goTmpl ecs).1 with
            | some e =>
              rw [main_of_go_error env toCamel goTmpl pyTmpl parser goOutfile pyOutfile
                hgo ecs evs hloop e hrun] at hev
              rcases List.mem_append.1 hev with h | h
              · exact absurd htarget (hnext _ _ hloop ev h)
              · exact absurd htarget (hgoev _ _ ev h)
            | none =>
              refine ⟨?_, ecs, evs, rfl, Or.inr hrun⟩
              intro hpy
              rw [main_of_go_ok env toCamel goTmpl pyTmpl parser goOutfile pyOutfile
                hgo ecs evs hloop hrun, if_neg (by simp [hpy]), List.append_nil] at hev
              rcases List.mem_append.1 hev with h | h
              · exact absurd htarget (hnext _ _ hloop ev h)
              · exact absurd htarget (hgoev _ _ ev h)

/-- Claim C9, amended, where no file can be opened and both targets are
requested, with every path its own file: the Go render fails and nothing of
the Python render happens; and where every step succeeds: the Python render
runs after the Go render. -/
theorem main_render_fail_fast_witness :
    ((main readOnlyEnv ToCamel "go template".toList "py template".toList
        (okScript sampleRows) "out.go".toList "out.py".toList).1 =
      .fatal (.goTemplate "failed to open output file: permission denied".toList) ∧
     ∀ ev ∈ (main readOnlyEnv ToCamel "go template".toList "py template".toList
        (okScript sampleRows) "out.go".toList "out.py".toList).2,
       ev.outfile.map id ≠ some "out.py".toList) ∧
    ("out.py".toList ≠ [] ∧
     ∃ (ecs : List ExitCode) (evs : List Event),
       rowLoop ToCamel (okScript sampleRows) 0 [] = (.ok ecs, evs) ∧
       ("out.go".toList = [] ∨
         (execTmpl okEnv evs "go".toList "out.go".toList "go template".toList ecs).1 =
           none)) :=
  have h1 := (main_render_fail_fast id readOnlyEnv ToCamel "go template".toList
    "py template".toList (okScript sampleRows) "out.go".toList "out.py".toList).1
    (sampleRows.map (buildExitCode ToCamel)) (List.replicate 3 Event.next)
    "failed to open output file: permission denied".toList
    (by decide) (by decide) rfl rfl
  have h2 := (main_render_fail_fast id okEnv ToCamel "go template".toList
    "py template".toList (okScript sampleRows) "out.go".toList "out.py".toList).2
    ⟨Event.render "py".toList "out.py".toList, by decide, rfl⟩
  ⟨⟨h1.1, h1.2.2.2 (by decide)⟩, h2⟩

/-! ### The camel-case loop -/

theorem toNat_ofNat_small (k : Nat) (h : k < 200) : (Char.ofNat k).toNat = k := by
  have hv : k.isValidChar := Or.inl (by omega)
  simp [Char.toNat, Char.ofNat, hv, Char.ofNatAux, UInt32.toNat]

theorem toCamelLoop_cons (v : Char) (rest : GoString) (i : Nat) (capNext prevIsCap : Bool)
    (n : GoString) :
    toCamelLoop (v :: rest) i capNext prevIsCap n =
      if isCap v || isLow v then
        toCamelLoop rest (i + 1) false (isCap v) (n ++ [writtenByte v i capNext prevIsCap])
      else if isNum v then
        toCamelLoop rest (i + 1) true (isCap v) (n ++ [writtenByte v i capNext prevIsCap])
      else
        toCamelLoop rest (i + 1) (isDelim v) (isCap v) n := rfl

theorem toCamelLoop_acc (s : GoString) (i : Nat) (capNext prevIsCap : Bool) (n : GoString) :
    toCamelLoop s i capNext prevIsCap n = n ++ toCamelLoop s i capNext prevIsCap [] := by
  induction s generalizing i capNext prevIsCap n with
  | nil => simp [toCamelLoop]
  | cons v rest ih =>
    rw [toCamelLoop_cons, toCamelLoop_cons]
    split_ifs
    · rw [ih _ _ _ (n ++ _), ih _ _ _ ([] ++ _)]
      simp
    · rw [ih _ _ _ (n ++ _), ih _ _ _ ([] ++ _)]
      simp
    · exact ih _ _ _ n

theorem writtenByte_index (v : Char) (i j : Nat) (capNext prevIsCap : Bool)
    (hi : i ≠ 0 ∨ capNext = true) (hj : j ≠ 0 ∨ capNext = true) :
    writtenByte v i capNext prevIsCap = writtenByte v j capNext prevIsCap := by
  unfold writtenByte
  cases capNext with
  | true => simp
  | false =>
    have hi0 : i ≠ 0 := by simpa using hi
    have hj0 : j ≠ 0 := by simpa using hj
    simp [hi0, hj0]

theorem toCamelLoop_index (s : GoString) (i j : Nat) (capNext prevIsCap : Bool)
    (n : GoString) (hi : i ≠ 0 ∨ capNext = true) (hj : j ≠ 0 ∨ capNext = true) :
    toCamelLoop s i capNext prevIsCap n = toCamelLoop s j capNext prevIsCap n := by
  induction s generalizing i j capNext prevIsCap n with
  | nil => simp [toCamelLoop]
  | cons v rest ih =>
    rw [toCamelLoop_cons, toCamelLoop_cons, writtenByte_index v i j capNext prevIsCap hi hj]
    split_ifs
    · exact ih _ _ _ _ _ (Or.inl (by omega)) (Or.inl (by omega))
    · exact ih _ _ _ _ _ (Or.inl (by omega)) (Or.inl (by omega))
    · exact ih _ _ _ _ _ (Or.inl (by omega)) (Or.inl (by omega))

theorem toCamelLoop_prev (s : GoString) (i : Nat) (p q : Bool) (n : GoString) :
    toCamelLoop s i true p n = toCamelLoop s i true q n := by
  cases s with
  | nil => simp [toCamelLoop]
  | cons v rest =>
    rw [toCamelLoop_cons, toCamelLoop_cons]
    have hw : writtenByte v i true p = writtenByte v i true q := by simp [writtenByte]
    rw [hw]

theorem toCamelLoop_underscore (t rest : GoString) (i : Nat) (capNext prevIsCap : Bool)
    (n : GoString) :
    toCamelLoop (t ++ '_' :: rest) i capNext prevIsCap n =
      toCamelLoop rest (i + t.length + 1) true false (toCamelLoop t i capNext prevIsCap n) := by
  induction t generalizing i capNext prevIsCap n with
  | nil =>
    have h1 : isLow '_' = false := by decide
    have h2 : isNum '_' = false := by decide
    have h3 : isDelim '_' = true := by decide
    have h4 : isCap '_' = false := by decide
    simp [toCamelLoop_cons, h1, h2, h3, h4, toCamelLoop]
  | cons v t ih =>
    have hlen : i + (v :: t).length + 1 = i + 1 + t.length + 1 := by
      simp only [List.length_cons]; omega
    rw [List.cons_append, toCamelLoop_cons, toCamelLoop_cons, hlen]
    split_ifs
    · exact ih _ _ _ _
    · exact ih _ _ _ _
    · exact ih _ _ _ _

theorem toCamelLoop_underscored (ts : List GoString) (i : Nat) (p : Bool) (n : GoString) :
    toCamelLoop (underscored ts) i true p n =
      n ++ (ts.map fun t => toCamelLoop t 0 true false []).flatten := by
  induction ts generalizing i p n with
  | nil => simp [underscored, toCamelLoop]
  | cons t ts ih =>
    cases ts with
    | nil =>
      simp only [underscored, List.map_cons, List.map_nil, List.flatten_cons,
        List.flatten_nil, List.append_nil]
      rw [toCamelLoop_acc, toCamelLoop_index t i 0 true p [] (Or.inr rfl) (Or.inr rfl),
        toCamelLoop_prev t 0 p false]
    | cons t2 ts =>
      have hu : underscored (t :: t2 :: ts) = t ++ '_' :: underscored (t2 :: ts) := rfl
      rw [hu, toCamelLoop_underscore, ih, toCamelLoop_acc t,
        toCamelLoop_index t i 0 true p [] (Or.inr rfl) (Or.inr rfl),
        toCamelLoop_prev t 0 p false]
      simp

theorem toCamelLoop_ne_nil (s : GoString) (i : Nat) (capNext prevIsCap : Bool)
    (n : GoString) (h : ∃ c ∈ s, isCap c = true ∨ isLow c = true ∨ isNum c = true) :
    toCamelLoop s i capNext prevIsCap n ≠ [] := by
  induction s generalizing i capNext prevIsCap n with
  | nil => simp at h
  | cons v rest ih =>
    rw [toCamelLoop_cons]
    split_ifs with h1 h2
    · rw [toCamelLoop_acc]
      simp
    · rw [toCamelLoop_acc]
      simp
    · obtain ⟨c, hc, hcl⟩ := h
      rcases List.mem_cons.1 hc with hcv | hcr
      · subst hcv
        simp only [Bool.or_eq_true, not_or, Bool.not_eq_true] at h1
        rcases hcl with h | h | h
        · rw [h1.1] at h; cases h
        · rw [h1.2] at h; cases h
        · exact absurd h h2
      · exact ih _ _ _ _ ⟨c, hcr, hcl⟩

/-! ### Trimming white space -/

theorem dropWhile_of_head (p : Char → Bool) (l : GoString) (h : ∀ c ∈ l.head?, p c = false) :
    l.dropWhile p = l := by
  cases l with
  | nil => rfl
  | cons a l =>
    have ha : p a = false := h a (by simp)
    simp [List.dropWhile, ha]

theorem trimSpace_of_no_space (s : GoString) (h : ∀ c ∈ s, isSpace c = false) :
    TrimSpace s = s := by
  unfold TrimSpace
  rw [dropWhile_of_head isSpace s (fun c hc => h c (List.mem_of_mem_head? hc)),
    dropWhile_of_head isSpace s.reverse
      (fun c hc => h c (List.mem_reverse.1 (List.mem_of_mem_head? hc))),
    List.reverse_reverse]

theorem mem_dropWhile_of_false (p : Char → Bool) (l : GoString) (c : Char) (hc : c ∈ l)
    (hp : p c = false) : c ∈ l.dropWhile p := by
  induction l with
  | nil => simp at hc
  | cons a l ih =>
    by_cases ha : p a = true
    · rw [List.dropWhile_cons_of_pos ha]
      rcases List.mem_cons.1 hc with h | h
      · rw [h, ha] at hp; cases hp
      · exact ih h
    · rw [List.dropWhile_cons_of_neg ha]
      exact hc

theorem mem_trimSpace (s : GoString) (c : Char) (hc : c ∈ s) (hp : isSpace c = false) :
    c ∈ TrimSpace s := by
  unfold TrimSpace
  rw [List.mem_reverse]
  apply mem_dropWhile_of_false _ _ _ _ hp
  rw [List.mem_reverse]
  exact mem_dropWhile_of_false _ _ _ hc hp

theorem not_isSpace_of_alnum (c : Char)
    (h : isCap c = true ∨ isLow c = true ∨ isNum c = true) : isSpace c = false := by
  simp only [isCap, isLow, isNum, Bool.and_eq_true, decide_eq_true_eq] at h
  simp only [isSpace, Bool.or_eq_false_iff, Bool.and_eq_false_iff, decide_eq_false_iff_not,
    beq_eq_false_iff_ne, ne_eq]
  omega

theorem toCamel_eq_loop (s : GoString) (h : ∀ c ∈ s, isSpace c = false) :
    ToCamel s = toCamelLoop s 0 true false [] := by
  unfold ToCamel
  rw [trimSpace_of_no_space s h]
  cases s with
  | nil => simp [toCamelLoop]
  | cons v rest => simp

theorem toCamel_ne_nil (s : GoString)
    (h : ∃ c ∈ s, isCap c = true ∨ isLow c = true ∨ isNum c = true) : ToCamel s ≠ [] := by
  obtain ⟨c, hc, hcl⟩ := h
  have hmem := mem_trimSpace s c hc (not_isSpace_of_alnum c hcl)
  unfold ToCamel
  have hne : TrimSpace s ≠ [] := List.ne_nil_of_mem hmem
  simp only [hne, if_false]
  exact toCamelLoop_ne_nil _ _ _ _ _ ⟨c, hmem, hcl⟩

/-! ### The style names -/

theorem isCap_toUpperByte (v : Char) (h : isLow v = true) : isCap (toUpperByte v) = true := by
  simp only [isLow, Bool.and_eq_true, decide_eq_true_eq] at h
  simp only [isCap, toUpperByte, Bool.and_eq_true, decide_eq_true_eq]
  rw [toNat_ofNat_small _ (by omega)]
  omega

theorem isLow_toLowerByte (v : Char) (h : isCap v = true) : isLow (toLowerByte v) = true := by
  simp only [isCap, Bool.and_eq_true, decide_eq_true_eq] at h
  simp only [isLow, toLowerByte, Bool.and_eq_true, decide_eq_true_eq]
  rw [toNat_ofNat_small _ (by omega)]
  omega

theorem isCap_capital (v : Char) (h : isCap v = true ∨ isLow v = true) :
    isCap (capital v) = true := by
  unfold capital
  by_cases hl : isLow v = true
  · rw [if_pos hl]
    exact isCap_toUpperByte v hl
  · rw [if_neg hl]
    rcases h with h | h
    · exact h
    · exact absurd h hl

theorem writtenByte_letter (v : Char) (i : Nat) (capNext prevIsCap : Bool)
    (h : isCap v = true ∨ isLow v = true) :
    isCap (writtenByte v i capNext prevIsCap) = true ∨
      isLow (writtenByte v i capNext prevIsCap) = true := by
  unfold writtenByte
  split_ifs with h1 h2 h3 h4 h5
  · exact Or.inl (isCap_toUpperByte v h2)
  · exact h
  · exact Or.inr (isLow_toLowerByte v h4)
  · exact h
  · exact Or.inr (isLow_toLowerByte v (by simp only [Bool.and_eq_true] at h5; exact h5.2))
  · exact h

theorem writtenByte_digit (v : Char) (i : Nat) (capNext prevIsCap : Bool)
    (h : isNum v = true) : writtenByte v i capNext prevIsCap = v := by
  have hnum := h
  simp only [isNum, Bool.and_eq_true, decide_eq_true_eq] at hnum
  have hl : isLow v = false := by
    simp only [isLow, Bool.and_eq_false_iff, decide_eq_false_iff_not]
    omega
  have hc : isCap v = false := by
    simp only [isCap, Bool.and_eq_false_iff, decide_eq_false_iff_not]
    omega
  simp [writtenByte, hl, hc]

theorem toCamelLoop_alnum (s : GoString) (i : Nat) (capNext prevIsCap : Bool) (n : GoString)
    (hn : ∀ c ∈ n, isCap c = true ∨ isLow c = true ∨ isNum c = true) :
    ∀ c ∈ toCamelLoop s i capNext prevIsCap n,
      isCap c = true ∨ isLow c = true ∨ isNum c = true := by
  induction s generalizing i capNext prevIsCap n with
  | nil => simpa [toCamelLoop] using hn
  | cons v rest ih =>
    rw [toCamelLoop_cons]
    split_ifs with h1 h2
    · apply ih
      intro c hc
      rcases List.mem_append.1 hc with h | h
      · exact hn c h
      · rw [List.mem_singleton.1 h]
        rcases writtenByte_letter v i capNext prevIsCap (by simpa using h1) with hw | hw
        · exact Or.inl hw
        · exact Or.inr (Or.inl hw)
    · apply ih
      intro c hc
      rcases List.mem_append.1 hc with h | h
      · exact hn c h
      · rw [List.mem_singleton.1 h, writtenByte_digit v i capNext prevIsCap h2]
        exact Or.inr (Or.inr h2)
    · exact ih _ _ _ _ hn

theorem toCamel_alnum (s : GoString) :
    ∀ c ∈ ToCamel s, isCap c = true ∨ isLow c = true ∨ isNum c = true := by
  unfold ToCamel
  by_cases h : TrimSpace s = []
  · simp [h]
  · simp only [h, if_false]
    exact toCamelLoop_alnum _ _ _ _ _ (by simp)

theorem toCamel_underscored (tokens : List GoString)
    (h : ∀ t ∈ tokens, ∀ c ∈ t, isCap c = true ∨ isLow c = true ∨ isNum c = true) :
    ToCamel (underscored tokens) = (tokens.map ToCamel).flatten := by
  have hmap : tokens.map ToCamel = tokens.map fun t => toCamelLoop t 0 true false [] := by
    apply List.map_congr_left
    intro t ht
    exact toCamel_eq_loop t fun c hc => not_isSpace_of_alnum c (h t ht c hc)
  have hsp : ∀ c ∈ underscored tokens, isSpace c = false := by
    clear hmap
    induction tokens with
    | nil => simp [underscored]
    | cons t ts ih =>
      cases ts with
      | nil =>
        intro c hc
        exact not_isSpace_of_alnum c (h t (by simp) c hc)
      | cons t2 ts =>
        intro c hc
        have hu : underscored (t :: t2 :: ts) = t ++ '_' :: underscored (t2 :: ts) := rfl
        rw [hu, List.mem_append, List.mem_cons] at hc
        rcases hc with hc | hc | hc
        · exact not_isSpace_of_alnum c (h t (by simp) c hc)
        · rw [hc]; decide
        · exact ih (fun t' ht' => h t' (List.mem_cons_of_mem _ ht')) c hc
  rw [toCamel_eq_loop _ hsp, toCamelLoop_underscored, hmap, List.nil_append]

theorem toCamel_head (v : Char) (t : GoString) (hv : isCap v = true ∨ isLow v = true)
    (ht : ∀ c ∈ t, isCap c = true ∨ isLow c = true ∨ isNum c = true) :
    ∃ rest, ToCamel (v :: t) = capital v :: rest := by
  have hsp : ∀ c ∈ v :: t, isSpace c = false := by
    intro c hc
    rcases List.mem_cons.1 hc with h | h
    · rw [h]
      exact not_isSpace_of_alnum v (by tauto)
    · exact not_isSpace_of_alnum c (ht c h)
  have hl : (isCap v || isLow v) = true := by simpa using hv
  refine ⟨toCamelLoop t 1 false (isCap v) [], ?_⟩
  rw [toCamel_eq_loop _ hsp, toCamelLoop_cons, if_pos hl, toCamelLoop_acc]
  simp [writtenByte, capital]

theorem strippedName_eq_nil (name : GoString) (h : strippedName name = []) :
    name = [] ∨ name = "EX_".toList ∨ name = "EXIT_".toList := by
  by_cases hex : "EX_".toList <+: name
  · obtain ⟨t, rfl⟩ := hex
    rw [strippedName_ex] at h
    rw [h]
    exact Or.inr (Or.inl rfl)
  · by_cases hexit : "EXIT_".toList <+: name
    · obtain ⟨t, rfl⟩ := hexit
      rw [strippedName_exit] at h
      rw [h]
      exact Or.inr (Or.inr rfl)
    · rw [strippedName_other name (hasPrefix_eq_false _ _ hex)
        (hasPrefix_eq_false _ _ hexit)] at h
      exact Or.inl h

/-- Claim C5 fails for a token whose first letter is not its first
character: the row named `EX_DATA_+err` gets the Go name `Dataerr`, in
which the first letter of the token `+err` is not capitalised.  So it is not
true of every token that the capital of its first letter occurs in the
conversion. -/
theorem goStyleName_first_letter_not_capital :
    plusRow.GSOverride = [] ∧
    (buildExitCode ToCamel plusRow).GoStyleName = "Dataerr".toList ∧
    ¬ (∀ (pre : GoString) (v : Char) (t : GoString),
        (∀ c ∈ pre, isCap c = false ∧ isLow c = false) →
        (isCap v = true ∨ isLow v = true) →
        capital v ∈ ToCamel (pre ++ v :: t)) :=
  ⟨rfl, by decide, fun h =>
    absurd (h "+".toList 'e' "rr".toList (by decide) (by decide)) (by decide)⟩

/-- Claim C5, amended: for every row with an empty Go-name override the
record's `GoStyleName` is the camel-case conversion of the prefix-stripped
name.  The conversion of tokens of ASCII letters and digits that are joined
by underscores is the concatenation of the conversions of the tokens, the
conversion of such a token that starts with a letter starts with the
capital of that letter, and every conversion holds letters and digits only:
the delimiters are removed.  A row named `EX_USAGE` gets `Usage` and a row
named `EX_DATA_ERR` gets `DataErr`. -/
theorem goStyleName_camel (toCamel : GoString → GoString) (ecRow : ExitCodeTSVRow) :
    (ecRow.GSOverride = [] →
      (buildExitCode toCamel ecRow).GoStyleName = toCamel (strippedName ecRow.Name)) ∧
    (∀ tokens : List GoString,
      (∀ t ∈ tokens, ∀ c ∈ t, isCap c = true ∨ isLow c = true ∨ isNum c = true) →
      ToCamel (underscored tokens) = (tokens.map ToCamel).flatten) ∧
    (∀ (v : Char) (t : GoString), (isCap v = true ∨ isLow v = true) →
      (∀ c ∈ t, isCap c = true ∨ isLow c = true ∨ isNum c = true) →
      isCap (capital v) = true ∧ ∃ rest, ToCamel (v :: t) = capital v :: rest) ∧
    (∀ s : GoString, ∀ c ∈ ToCamel s, isCap c = true ∨ isLow c = true ∨ isNum c = true) ∧
    (ecRow.GSOverride = [] →
      (buildExitCode ToCamel { ecRow with Name := "EX_USAGE".toList }).GoStyleName =
          "Usage".toList ∧
      (buildExitCode ToCamel { ecRow with Name := "EX_DATA_ERR".toList }).GoStyleName =
          "DataErr".toList) := by
  refine ⟨?_, toCamel_underscored, ?_, toCamel_alnum, ?_⟩
  · intro h
    simp [buildExitCode, h]
  · intro v t hv ht
    exact ⟨isCap_capital v hv, toCamel_head v t hv ht⟩
  · intro h
    have h1 : ToCamel (strippedName "EX_USAGE".toList) = "Usage".toList := by decide
    have h2 : ToCamel (strippedName "EX_DATA_ERR".toList) = "DataErr".toList := by decide
    simp only [buildExitCode, h, ne_eq, not_true_eq_false, if_false]
    exact ⟨h1, h2⟩

/-- Claim C5, amended, at the row `64 EX_USAGE` and at the tokens `DATA`,
`ERR`. -/
theorem goStyleName_camel_witness :
    (sampleRows.get ⟨1, by decide⟩).GSOverride = [] ∧
    (buildExitCode ToCamel (sampleRows.get ⟨1, by decide⟩)).GoStyleName = "Usage".toList ∧
    ToCamel (underscored ["DATA".toList, "ERR".toList]) =
      (["DATA".toList, "ERR".toList].map ToCamel).flatten ∧
    (∃ rest, ToCamel ('d' :: "ata".toList) = capital 'd' :: rest) :=
  have h := goStyleName_camel ToCamel (sampleRows.get ⟨1, by decide⟩)
  ⟨rfl, (h.2.2.2.2 rfl).1, h.2.1 ["DATA".toList, "ERR".toList] (by decide),
    (h.2.2.1 'd' "ata".toList (by decide) (by decide)).2⟩

/-- Claim C6 fails for a row whose canonical name is just the prefix
`EX_`: the name is not empty, and both style names of its record are. -/
theorem styleNames_empty_of_bare_prefix :
    bareRow.Name ≠ [] ∧
    (buildExitCode ToCamel bareRow).GoStyleName = [] ∧
    (buildExitCode ToCamel bareRow).PyStyleName = [] ∧
    ¬ (∀ ecRow : ExitCodeTSVRow, ecRow.Name ≠ [] →
        (buildExitCode ToCamel ecRow).GoStyleName ≠ [] ∧
        (buildExitCode ToCamel ecRow).PyStyleName ≠ []) :=
  ⟨by decide, by decide, by decide, fun h => (h bareRow (by decide)).2 (by decide)⟩

/-- Claim C6, amended: the record's `PyStyleName` is not empty when the
Python override is not empty or the canonical name is neither empty nor
just one of the prefixes `EX_` and `EXIT_`; the record's `GoStyleName` is
not empty when the Go override is not empty or the prefix-stripped name
holds an ASCII letter or digit. -/
theorem styleNames_ne_nil (toCamel : GoString → GoString) (ecRow : ExitCodeTSVRow) :
    ((ecRow.PSOverride ≠ [] ∨
        (ecRow.Name ≠ [] ∧ ecRow.Name ≠ "EX_".toList ∧ ecRow.Name ≠ "EXIT_".toList)) →
      (buildExitCode toCamel ecRow).PyStyleName ≠ []) ∧
    ((ecRow.GSOverride ≠ [] ∨
        ∃ c ∈ strippedName ecRow.Name, isCap c = true ∨ isLow c = true ∨ isNum c = true) →
      (buildExitCode ToCamel ecRow).GoStyleName ≠ []) := by
  constructor
  · intro h
    by_cases hov : ecRow.PSOverride = []
    · have hname : strippedName ecRow.Name ≠ [] := by
        intro hs
        rcases h with h | h
        · exact h hov
        · rcases strippedName_eq_nil _ hs with h1 | h1 | h1
          · exact h.1 h1
          · exact h.2.1 h1
          · exact h.2.2 h1
      simpa [buildExitCode, hov] using hname
    · simp [buildExitCode, hov]
  · intro h
    by_cases hov : ecRow.GSOverride = []
    · have hex : ∃ c ∈ strippedName ecRow.Name,
          isCap c = true ∨ isLow c = true ∨ isNum c = true := by
        rcases h with h | h
        · exact absurd hov h
        · exact h
      simpa [buildExitCode, hov] using toCamel_ne_nil _ hex
    · simp [buildExitCode, hov]

/-- Claim C6, amended, at the row `64 EX_USAGE`. -/
theorem styleNames_ne_nil_witness :
    (buildExitCode ToCamel (sampleRows.get ⟨1, by decide⟩)).PyStyleName ≠ [] ∧
    (buildExitCode ToCamel (sampleRows.get ⟨1, by decide⟩)).GoStyleName ≠ [] :=
  have h := styleNames_ne_nil ToCamel (sampleRows.get ⟨1, by decide⟩)
  ⟨h.1 (Or.inr (by decide)), h.2 (Or.inr ⟨'U', by decide, by decide⟩)⟩

end ExitCodes
